import Mathlib

/-!
# SentencePiece C bridge: marshaling layer

A shallow embedding of `SentencePieceWrapper/SentencePieceBridge.cpp` (and of
`SentencePieceBridge-Framework.cpp`, whose function bodies are the same text,
minus `sentencepiece_decode_ids` and `sentencepiece_destroy`).

* The tokenizer `sentencepiece::SentencePieceProcessor` is third-party code.  It
  enters as a parameter: an `Engine` gives the behaviour of a default-constructed
  processor and of `Load`; a `Model` gives the methods the bridge calls.
* Memory is an explicit heap of blocks.  A pointer is null, the start of a heap
  block, or the buffer of the `thread_local std::string` of
  `sentencepiece_id_to_piece`.  Dereferencing anything else is `Outcome.undefined`.
* `std::string` is a list of characters that may contain NUL; a `char*` seen
  through `c_str()`/`strdup` ends at the first NUL.
* `malloc`, `strdup` and `new` always succeed and return an unused address.
-/

namespace SentencePieceBridge

/-! ## Data model -/

/-- Contents of a `std::string` (may contain NUL). -/
abbrev Text := List Char

/-- The terminator of a C string. -/
def NUL : Char := Char.ofNat 0

/-- What a reader of `s.c_str()` sees: the characters before the first NUL. -/
def c_str (s : Text) : Text := s.takeWhile (fun c => decide (c ≠ NUL))

/-- A C `float`, kept as its IEEE-754 binary32 bit pattern (the bridge only passes
scores through and never computes with them). -/
structure Float32 where
  bits : Nat
deriving DecidableEq, Repr

/-- The literal `0.0f`. -/
def Float32.zero : Float32 := ⟨0⟩

/-- Conversion of a `size_t` to the `int` return type (`return pieces_vec.size();`):
reduction modulo `2^32` into the signed range. -/
def size_to_int (n : Nat) : Int :=
  if n % 2 ^ 32 < 2 ^ 31 then ((n % 2 ^ 32 : Nat) : Int) else ((n % 2 ^ 32 : Nat) : Int) - 2 ^ 32

/-- A pointer value. -/
inductive Ptr where
  | null
  | addr (a : Nat)
  | scratch
deriving DecidableEq, Repr

/-- Methods of a `sentencepiece::SentencePieceProcessor` used by the bridge.
A `util::Status` that is not `ok()` is `none`. -/
structure Model where
  EncodePieces : Text → Option (List Text)
  EncodeIds : Text → Option (List Int)
  Decode : List Int → Option Text
  GetPieceSize : Int
  PieceToId : Text → Int
  IdToPiece : Int → Text
  GetScore : Int → Float32

/-- The tokenizer library: a default-constructed processor and the effect of `Load`. -/
structure Engine where
  unloaded : Model
  Load : Text → Option Model

/-- One heap block. -/
inductive Block where
  | processor (m : Model)
  | chars (s : Text)
  | ptrs (ps : List (Option Ptr))
  | ints (xs : List (Option Int))
  | cell (p : Ptr)

/-- Record of one call into the engine. -/
inductive EngineCall where
  | construct
  | destruct
  | Load (path : Text)
  | EncodePieces (text : Text)
  | EncodeIds (text : Text)
  | Decode (ids : List Int)
  | GetPieceSize
  | PieceToId (piece : Text)
  | IdToPiece (id : Int)
  | GetScore (id : Int)
deriving DecidableEq, Repr

/-- Heap as an association list from addresses to blocks. -/
abbrev Heap := List (Nat × Block)

/-- Block stored at an address. -/
def Heap.get : Heap → Nat → Option Block
  | [], _ => none
  | (k, b) :: h, a => if k = a then some b else Heap.get h a

/-- Overwrite the block at an allocated address. -/
def Heap.set : Heap → Nat → Block → Heap
  | [], _, _ => []
  | (k, b) :: h, a, v => if k = a then (k, v) :: h else (k, b) :: Heap.set h a v

/-- An address above every allocated one. -/
def Heap.fresh : Heap → Nat
  | [] => 1
  | (k, _) :: h => max (k + 1) (Heap.fresh h)

/-- Release the block at an address. -/
def Heap.free : Heap → Nat → Heap
  | [], _ => []
  | (k, b) :: h, a => if k = a then Heap.free h a else (k, b) :: Heap.free h a

/-- Program state: heap, the `thread_local std::string piece`, and the engine calls
made so far. -/
structure World where
  heap : Heap
  scratch : Text
  calls : List EngineCall

/-- Result of running a bridge function. -/
inductive Outcome (α : Type) where
  | ret (value : α) (w : World)
  | undefined

/-- The returned value, when the behaviour is defined. -/
def Outcome.value {α : Type} : Outcome α → Option α
  | Outcome.ret v _ => some v
  | Outcome.undefined => none

/-- The state after the call, when the behaviour is defined. -/
def Outcome.world {α : Type} : Outcome α → Option World
  | Outcome.ret _ w => some w
  | Outcome.undefined => none

/-- Allocate a new block (`malloc`, `strdup`, `new`). -/
def World.alloc (w : World) (b : Block) : Nat × World :=
  (Heap.fresh w.heap, { w with heap := (Heap.fresh w.heap, b) :: w.heap })

/-- Append to the record of engine calls. -/
def World.call (w : World) (c : EngineCall) : World :=
  { w with calls := w.calls ++ [c] }

/-- The processor a handle points to. -/
def World.processorAt (w : World) : Ptr → Option Model
  | Ptr.addr a =>
    match Heap.get w.heap a with
    | some (Block.processor m) => some m
    | _ => none
  | _ => none

/-- The C string a `const char*` points to. -/
def World.readCStr (w : World) : Ptr → Option Text
  | Ptr.null => none
  | Ptr.scratch => some (c_str w.scratch)
  | Ptr.addr a =>
    match Heap.get w.heap a with
    | some (Block.chars s) => some (c_str s)
    | _ => none

/-- Value of the pointer variable a pointer-to-pointer refers to. -/
def World.readCell (w : World) : Ptr → Option Ptr
  | Ptr.addr a =>
    match Heap.get w.heap a with
    | some (Block.cell p) => some p
    | _ => none
  | _ => none

/-- Assignment `*loc = p`. -/
def World.writeCell (w : World) (loc : Ptr) (p : Ptr) : Option World :=
  match loc with
  | Ptr.addr a =>
    match Heap.get w.heap a with
    | some (Block.cell _) => some { w with heap := Heap.set w.heap a (Block.cell p) }
    | _ => none
  | _ => none

/-- Assignment `arr[i] = p` into a `char**` array. -/
def World.writePtrAt (w : World) (arr : Ptr) (i : Nat) (p : Ptr) : Option World :=
  match arr with
  | Ptr.addr a =>
    match Heap.get w.heap a with
    | some (Block.ptrs ps) =>
      if i < ps.length then some { w with heap := Heap.set w.heap a (Block.ptrs (ps.set i (some p))) }
      else none
    | _ => none
  | _ => none

/-- The call `memcpy(dst, src.data(), src.size() * sizeof(int))`. -/
def World.memcpyInts (w : World) (dst : Ptr) (src : List Int) : Option World :=
  match dst with
  | Ptr.addr a =>
    match Heap.get w.heap a with
    | some (Block.ints xs) =>
      if src.length ≤ xs.length then
        some { w with heap := Heap.set w.heap a (Block.ints (src.map some ++ xs.drop src.length)) }
      else none
    | _ => none
  | _ => none

/-- All entries of an array, provided each is initialised. -/
def allInit {α : Type} : List (Option α) → Option (List α)
  | [] => some []
  | none :: _ => none
  | some x :: xs =>
    match allInit xs with
    | some ys => some (x :: ys)
    | none => none

/-- The range `ids[0..n)` of an `int` array. -/
def World.readInts (w : World) (ids : Ptr) (n : Nat) : Option (List Int) :=
  match ids with
  | Ptr.addr a =>
    match Heap.get w.heap a with
    | some (Block.ints xs) => if n ≤ xs.length then allInit (xs.take n) else none
    | _ => none
  | _ => none

/-! ## The bridge functions -/

/-- Embedding of `sentencepiece_create`. -/
def sentencepiece_create (E : Engine) (model_path : Ptr) (w : World) : Outcome Ptr :=
  -- auto* processor = new sentencepiece::SentencePieceProcessor();
  let (processor, w1) := (w.call EngineCall.construct).alloc (Block.processor E.unloaded)
  -- const auto status = processor->Load(model_path);
  match w1.readCStr model_path with
  | none => Outcome.undefined
  | some path =>
    let w2 := w1.call (EngineCall.Load path)
    match E.Load path with
    | none =>
      -- delete processor; return nullptr;
      Outcome.ret Ptr.null { (w2.call EngineCall.destruct) with heap := Heap.free w2.heap processor }
    | some m =>
      -- return processor;
      Outcome.ret (Ptr.addr processor) { w2 with heap := Heap.set w2.heap processor (Block.processor m) }

/-- The loop `for (i = 0; i < pieces_vec.size(); ++i) (*pieces)[i] = strdup(pieces_vec[i].c_str());`
run from index `i` on the remaining elements. -/
def encode_as_pieces_loop (pieces : Ptr) : List Text → Nat → World → Option World
  | [], _, w => some w
  | s :: rest, i, w =>
    let (dup, w1) := w.alloc (Block.chars (c_str s))
    match w1.readCell pieces with
    | some arr =>
      match w1.writePtrAt arr i (Ptr.addr dup) with
      | some w2 => encode_as_pieces_loop pieces rest (i + 1) w2
      | none => none
    | none => none

/-- Embedding of `sentencepiece_encode_as_pieces`. -/
def sentencepiece_encode_as_pieces (processor text pieces : Ptr) (w : World) : Outcome Int :=
  -- if (!processor || !text || !pieces) return 0;
  if processor = Ptr.null ∨ text = Ptr.null ∨ pieces = Ptr.null then Outcome.ret 0 w
  else
    match w.processorAt processor, w.readCStr text with
    | some sp, some t =>
      -- const auto status = sp->Encode(text, &pieces_vec);
      let w1 := w.call (EngineCall.EncodePieces t)
      match sp.EncodePieces t with
      | none => Outcome.ret 0 w1
      | some pieces_vec =>
        -- *pieces = (char**)malloc(pieces_vec.size() * sizeof(char*));
        let (arr, w2) := w1.alloc (Block.ptrs (List.replicate pieces_vec.length none))
        match w2.writeCell pieces (Ptr.addr arr) with
        | none => Outcome.undefined
        | some w3 =>
          match encode_as_pieces_loop pieces pieces_vec 0 w3 with
          | none => Outcome.undefined
          | some w4 => Outcome.ret (size_to_int pieces_vec.length) w4
    | _, _ => Outcome.undefined

/-- Embedding of `sentencepiece_encode_as_ids`. -/
def sentencepiece_encode_as_ids (processor text ids : Ptr) (w : World) : Outcome Int :=
  -- if (!processor || !text || !ids) return 0;
  if processor = Ptr.null ∨ text = Ptr.null ∨ ids = Ptr.null then Outcome.ret 0 w
  else
    match w.processorAt processor, w.readCStr text with
    | some sp, some t =>
      -- const auto status = sp->Encode(text, &ids_vec);
      let w1 := w.call (EngineCall.EncodeIds t)
      match sp.EncodeIds t with
      | none => Outcome.ret 0 w1
      | some ids_vec =>
        -- *ids = (int*)malloc(ids_vec.size() * sizeof(int));
        let (arr, w2) := w1.alloc (Block.ints (List.replicate ids_vec.length none))
        match w2.writeCell ids (Ptr.addr arr) with
        | none => Outcome.undefined
        | some w3 =>
          -- memcpy(*ids, ids_vec.data(), ids_vec.size() * sizeof(int));
          match w3.readCell ids with
          | none => Outcome.undefined
          | some dst =>
            match w3.memcpyInts dst ids_vec with
            | none => Outcome.undefined
            | some w4 => Outcome.ret (size_to_int ids_vec.length) w4
    | _, _ => Outcome.undefined

/-- Embedding of `sentencepiece_get_piece_size`. -/
def sentencepiece_get_piece_size (processor : Ptr) (w : World) : Outcome Int :=
  -- if (!processor) return 0;
  if processor = Ptr.null then Outcome.ret 0 w
  else
    match w.processorAt processor with
    | some sp => Outcome.ret sp.GetPieceSize (w.call EngineCall.GetPieceSize)
    | none => Outcome.undefined

/-- Embedding of `sentencepiece_piece_to_id`. -/
def sentencepiece_piece_to_id (processor piece : Ptr) (w : World) : Outcome Int :=
  -- if (!processor || !piece) return -1;
  if processor = Ptr.null ∨ piece = Ptr.null then Outcome.ret (-1) w
  else
    match w.processorAt processor, w.readCStr piece with
    | some sp, some p => Outcome.ret (sp.PieceToId p) (w.call (EngineCall.PieceToId p))
    | _, _ => Outcome.undefined

/-- Embedding of `sentencepiece_id_to_piece`. -/
def sentencepiece_id_to_piece (processor : Ptr) (id : Int) (w : World) : Outcome Ptr :=
  -- if (!processor) return nullptr;
  if processor = Ptr.null then Outcome.ret Ptr.null w
  else
    match w.processorAt processor with
    | some sp =>
      -- piece = sp->IdToPiece(id); return piece.c_str();
      Outcome.ret Ptr.scratch { (w.call (EngineCall.IdToPiece id)) with scratch := sp.IdToPiece id }
    | none => Outcome.undefined

/-- Embedding of `sentencepiece_get_score`. -/
def sentencepiece_get_score (processor : Ptr) (id : Int) (w : World) : Outcome Float32 :=
  -- if (!processor) return 0.0f;
  if processor = Ptr.null then Outcome.ret Float32.zero w
  else
    match w.processorAt processor with
    | some sp => Outcome.ret (sp.GetScore id) (w.call (EngineCall.GetScore id))
    | none => Outcome.undefined

/-- Embedding of `sentencepiece_decode_ids`. -/
def sentencepiece_decode_ids (processor ids : Ptr) (num_ids : Int) (w : World) : Outcome Ptr :=
  -- if (!processor || !ids || num_ids <= 0) return nullptr;
  if processor = Ptr.null ∨ ids = Ptr.null ∨ num_ids ≤ 0 then Outcome.ret Ptr.null w
  else
    -- std::vector<int> ids_vec(ids, ids + num_ids);
    match w.processorAt processor, w.readInts ids num_ids.toNat with
    | some sp, some ids_vec =>
      -- const auto status = sp->Decode(ids_vec, &decoded);
      let w1 := w.call (EngineCall.Decode ids_vec)
      match sp.Decode ids_vec with
      | none => Outcome.ret Ptr.null w1
      | some decoded =>
        -- return strdup(decoded.c_str());
        let (dup, w2) := w1.alloc (Block.chars (c_str decoded))
        Outcome.ret (Ptr.addr dup) w2
    | _, _ => Outcome.undefined

/-- Embedding of `sentencepiece_destroy`. -/
def sentencepiece_destroy (processor : Ptr) (w : World) : Outcome Unit :=
  -- if (processor) delete static_cast<sentencepiece::SentencePieceProcessor*>(processor);
  if processor = Ptr.null then Outcome.ret () w
  else
    match processor, w.processorAt processor with
    | Ptr.addr a, some _ =>
      Outcome.ret () { (w.call EngineCall.destruct) with heap := Heap.free w.heap a }
    | _, _ => Outcome.undefined

/-- Embedding of `sentencepiece_free_processor`. -/
def sentencepiece_free_processor (processor : Ptr) (w : World) : Outcome Unit :=
  sentencepiece_destroy processor w

/-! ## Caller-side sequences named by the properties -/

/-- The strings `arr[0..count)` a `char**` array refers to. -/
def World.readCStrs (w : World) : List Ptr → Option (List Text)
  | [] => some []
  | p :: ps =>
    match w.readCStr p, World.readCStrs w ps with
    | some s, some ss => some (s :: ss)
    | _, _ => none

/-- What a caller reads through the output location of `sentencepiece_encode_as_pieces`:
the first `count` strings of the array `*pieces`. -/
def World.readPieces (w : World) (pieces : Ptr) (count : Nat) : Option (List Text) :=
  match w.readCell pieces with
  | some (Ptr.addr arr) =>
    match Heap.get w.heap arr with
    | some (Block.ptrs ps) =>
      if count ≤ ps.length then
        match allInit (ps.take count) with
        | some qs => w.readCStrs qs
        | none => none
      else none
    | _ => none
  | _ => none

/-- The caller expression `sentencepiece_piece_to_id(h, sentencepiece_id_to_piece(h, id))`. -/
def piece_to_id_of_id_to_piece (processor : Ptr) (id : Int) (w : World) : Outcome Int :=
  match sentencepiece_id_to_piece processor id w with
  | Outcome.ret piece w1 => sentencepiece_piece_to_id processor piece w1
  | Outcome.undefined => Outcome.undefined

/-- The engine maps ids of `[0, GetPieceSize)` to pairwise distinct pieces and
`PieceToId` inverts `IdToPiece` there. -/
def Model.Bijective (m : Model) : Prop :=
  ∀ id : Int, 0 ≤ id → id < m.GetPieceSize → m.PieceToId (m.IdToPiece id) = id

/-! ## A small engine and state for concrete evaluation -/

/-- Vocabulary of the demonstration model; the last piece contains a NUL. -/
def demoVocab : List Text := [['?'], ['a'], ['b'], [NUL, 'z']]

/-- Position of a piece in a vocabulary, `0` (unknown) when absent. -/
def vocabIndex : List Text → Text → Nat → Nat
  | [], _, _ => 0
  | p :: ps, q, i => if p = q then i else vocabIndex ps q (i + 1)

/-- Decoding over a vocabulary: fails on an id outside it. -/
def vocabDecode (v : List Text) : List Int → Option Text
  | [] => some []
  | i :: is =>
    if 0 ≤ i ∧ i.toNat < v.length then
      match vocabDecode v is with
      | some t => some (v.getD i.toNat [] ++ t)
      | none => none
    else none

/-- The piece the demonstration model emits for a character: `z` is written with
the last vocabulary piece, every other character with itself. -/
def demoPiece (c : Char) : Text := if c = 'z' then [NUL, 'z'] else [c]

/-- A model over `demoVocab`: one piece per character, failing on the text `!`. -/
def demoModel : Model where
  EncodePieces := fun t => if t = ['!'] then none else some (t.map demoPiece)
  EncodeIds := fun t =>
    if t = ['!'] then none
    else some (t.map (fun c => (vocabIndex demoVocab (demoPiece c) 0 : Int)))
  Decode := vocabDecode demoVocab
  GetPieceSize := 4
  PieceToId := fun p => (vocabIndex demoVocab p 0 : Int)
  IdToPiece := fun i => if 0 ≤ i then demoVocab.getD i.toNat [] else []
  GetScore := fun i => if i = 1 then ⟨0xBF800000⟩ else ⟨0xC1200000⟩

/-- A processor on which every call fails. -/
def emptyModel : Model where
  EncodePieces := fun _ => none
  EncodeIds := fun _ => none
  Decode := fun _ => none
  GetPieceSize := 0
  PieceToId := fun _ => 0
  IdToPiece := fun _ => []
  GetScore := fun _ => Float32.zero

/-- An engine that loads `demoModel` from the path `m` only. -/
def demoEngine : Engine where
  unloaded := emptyModel
  Load := fun path => if path = ['m'] then some demoModel else none

/-- A state with a loaded processor at 1, strings at 2..6, an uninitialised-style
pointer variable at 7 and `int` arrays at 8 and 9. -/
def demoWorld : World where
  heap := [(1, Block.processor demoModel), (2, Block.chars ['m']), (3, Block.chars ['z']),
    (4, Block.chars ['a', 'b']), (5, Block.chars []), (6, Block.chars ['!']),
    (7, Block.cell (Ptr.addr 99)), (8, Block.ints [some 1, some 3, some 2]),
    (9, Block.ints [some 1, some 7])]
  scratch := []
  calls := []

/-! ## Heap lemmas -/

theorem Heap.get_lt_fresh (h : Heap) (a : Nat) (b : Block) (hb : Heap.get h a = some b) :
    a < Heap.fresh h := by
  induction h with
  | nil => simp [Heap.get] at hb
  | cons kb h ih =>
    obtain ⟨k, v⟩ := kb
    simp only [Heap.get] at hb
    simp only [Heap.fresh]
    by_cases hk : k = a
    · subst hk; omega
    · rw [if_neg hk] at hb
      have := ih hb
      omega

theorem Heap.get_fresh (h : Heap) : Heap.get h (Heap.fresh h) = none := by
  cases hg : Heap.get h (Heap.fresh h) with
  | none => rfl
  | some b => exact absurd (Heap.get_lt_fresh h _ b hg) (lt_irrefl _)

theorem Heap.ne_fresh (h : Heap) (a : Nat) (b : Block) (hb : Heap.get h a = some b) :
    Heap.fresh h ≠ a := by
  have := Heap.get_lt_fresh h a b hb
  omega

theorem Heap.free_of_get_none (h : Heap) (a : Nat) (hn : Heap.get h a = none) :
    Heap.free h a = h := by
  induction h with
  | nil => rfl
  | cons kb h ih =>
    obtain ⟨k, v⟩ := kb
    simp only [Heap.get] at hn
    by_cases hk : k = a
    · rw [if_pos hk] at hn; cases hn
    · rw [if_neg hk] at hn
      simp only [Heap.free, if_neg hk, ih hn]

theorem Heap.get_set_self (h : Heap) (a : Nat) (b v : Block) (hb : Heap.get h a = some b) :
    Heap.get (Heap.set h a v) a = some v := by
  induction h with
  | nil => simp [Heap.get] at hb
  | cons kb h ih =>
    obtain ⟨k, u⟩ := kb
    simp only [Heap.get] at hb
    by_cases hk : k = a
    · simp [Heap.set, Heap.get, hk]
    · rw [if_neg hk] at hb
      simp [Heap.set, Heap.get, hk, ih hb]

theorem Heap.get_set_ne (h : Heap) (a c : Nat) (v : Block) (hne : a ≠ c) :
    Heap.get (Heap.set h a v) c = Heap.get h c := by
  induction h with
  | nil => rfl
  | cons kb h ih =>
    obtain ⟨k, u⟩ := kb
    by_cases hk : k = a
    · subst hk
      simp [Heap.set, Heap.get, hne]
    · by_cases hc : k = c
      · subst hc
        simp [Heap.set, Heap.get, if_neg hk]
      · simp [Heap.set, Heap.get, if_neg hk, hc, ih]

theorem Heap.get_cons_of_get (h : Heap) (a c : Nat) (b v : Block)
    (hb : Heap.get h c = some b) (ha : a = Heap.fresh h) :
    Heap.get ((a, v) :: h) c = some b := by
  have hne : a ≠ c := by rw [ha]; exact Heap.ne_fresh h c b hb
  simp [Heap.get, hne, hb]

theorem World.processorAt_null (w : World) : w.processorAt Ptr.null = none := rfl

theorem World.processorAt_ne_null (w : World) (p : Ptr) (m : Model)
    (h : w.processorAt p = some m) : p ≠ Ptr.null := by
  intro hp; subst hp; simp [World.processorAt] at h

theorem World.readCStr_ne_null (w : World) (p : Ptr) (t : Text)
    (h : w.readCStr p = some t) : p ≠ Ptr.null := by
  intro hp; subst hp; simp [World.readCStr] at h

theorem World.readCell_eq (w : World) (out old : Ptr) (h : w.readCell out = some old) :
    ∃ c, out = Ptr.addr c ∧ Heap.get w.heap c = some (Block.cell old) := by
  cases out with
  | null => simp [World.readCell] at h
  | scratch => simp [World.readCell] at h
  | addr c =>
    refine ⟨c, rfl, ?_⟩
    simp only [World.readCell] at h
    cases hg : Heap.get w.heap c with
    | none => simp [hg] at h
    | some b =>
      cases b with
      | cell q => simp [hg] at h; rw [h]
      | processor m => simp [hg] at h
      | chars t => simp [hg] at h
      | ptrs ps => simp [hg] at h
      | ints xs => simp [hg] at h

/-- C1: on a null handle, with any other arguments, every operation returns its
sentinel (0, 0, 0, -1, null, 0.0, null) and hands back the state it was given, so
no engine call is recorded and nothing is allocated or written. -/
theorem null_handle_returns_sentinels (w : World) (text pieces ids piece : Ptr)
    (id num_ids : Int) :
    sentencepiece_encode_as_pieces Ptr.null text pieces w = Outcome.ret 0 w ∧
    sentencepiece_encode_as_ids Ptr.null text ids w = Outcome.ret 0 w ∧
    sentencepiece_get_piece_size Ptr.null w = Outcome.ret 0 w ∧
    sentencepiece_piece_to_id Ptr.null piece w = Outcome.ret (-1) w ∧
    sentencepiece_id_to_piece Ptr.null id w = Outcome.ret Ptr.null w ∧
    sentencepiece_get_score Ptr.null id w = Outcome.ret Float32.zero w ∧
    sentencepiece_decode_ids Ptr.null ids num_ids w = Outcome.ret Ptr.null w := by
  simp [sentencepiece_encode_as_pieces, sentencepiece_encode_as_ids,
    sentencepiece_get_piece_size, sentencepiece_piece_to_id, sentencepiece_id_to_piece,
    sentencepiece_get_score, sentencepiece_decode_ids]

/-! ## Engine failure during encoding -/

/-- C3: for a live handle and a readable text, when the engine's Encode fails,
`sentencepiece_encode_as_pieces` returns 0, the heap is the one before the call and
the output location reads as it did before; the same holds for
`sentencepiece_encode_as_ids`. -/
theorem encode_failure_returns_zero_output_untouched (w : World) (processor text out : Ptr)
    (sp : Model) (t : Text) (hp : w.processorAt processor = some sp)
    (ht : w.readCStr text = some t) (hout : out ≠ Ptr.null) :
    (sp.EncodePieces t = none →
      ∃ w1, sentencepiece_encode_as_pieces processor text out w = Outcome.ret 0 w1 ∧
        w1.heap = w.heap ∧ w1.readCell out = w.readCell out) ∧
    (sp.EncodeIds t = none →
      ∃ w1, sentencepiece_encode_as_ids processor text out w = Outcome.ret 0 w1 ∧
        w1.heap = w.heap ∧ w1.readCell out = w.readCell out) := by
  have h1 := World.processorAt_ne_null w processor sp hp
  have h2 := World.readCStr_ne_null w text t ht
  constructor
  · intro hf
    refine ⟨w.call (EngineCall.EncodePieces t), ?_, rfl, rfl⟩
    simp [sentencepiece_encode_as_pieces, h1, h2, hout, hp, ht, hf]
  · intro hf
    refine ⟨w.call (EngineCall.EncodeIds t), ?_, rfl, rfl⟩
    simp [sentencepiece_encode_as_ids, h1, h2, hout, hp, ht, hf]

theorem encode_failure_returns_zero_output_untouched_witness :
    demoWorld.processorAt (Ptr.addr 1) = some demoModel ∧
    demoWorld.readCStr (Ptr.addr 6) = some ['!'] ∧
    (∃ w1, sentencepiece_encode_as_pieces (Ptr.addr 1) (Ptr.addr 6) (Ptr.addr 7) demoWorld
        = Outcome.ret 0 w1 ∧
      w1.heap = demoWorld.heap ∧ w1.readCell (Ptr.addr 7) = demoWorld.readCell (Ptr.addr 7)) ∧
    (∃ w1, sentencepiece_encode_as_ids (Ptr.addr 1) (Ptr.addr 6) (Ptr.addr 7) demoWorld
        = Outcome.ret 0 w1 ∧
      w1.heap = demoWorld.heap ∧ w1.readCell (Ptr.addr 7) = demoWorld.readCell (Ptr.addr 7)) :=
  ⟨rfl, rfl,
    (encode_failure_returns_zero_output_untouched demoWorld (Ptr.addr 1) (Ptr.addr 6) (Ptr.addr 7)
      demoModel ['!'] rfl rfl (by decide)).1 rfl,
    (encode_failure_returns_zero_output_untouched demoWorld (Ptr.addr 1) (Ptr.addr 6) (Ptr.addr 7)
      demoModel ['!'] rfl rfl (by decide)).2 rfl⟩

/-! ## Handle lifecycle -/

theorem World.readCStr_alloc (w : World) (b : Block) (p : Ptr) (t : Text)
    (h : w.readCStr p = some t) : (w.alloc b).2.readCStr p = some t := by
  cases p with
  | null => simp [World.readCStr] at h
  | scratch => simpa [World.readCStr, World.alloc] using h
  | addr a =>
    simp only [World.readCStr] at h
    cases hg : Heap.get w.heap a with
    | none => simp [hg] at h
    | some blk =>
      have hne : Heap.fresh w.heap ≠ a := Heap.ne_fresh w.heap a blk hg
      simp only [World.readCStr, World.alloc, Heap.get, if_neg hne]
      exact h

theorem create_outcome (E : Engine) (model_path : Ptr) (w : World) (path : Text)
    (hpath : w.readCStr model_path = some path) :
    (E.Load path = none ∧
      sentencepiece_create E model_path w = Outcome.ret Ptr.null
        { heap := w.heap, scratch := w.scratch,
          calls := ((w.calls ++ [EngineCall.construct]) ++ [EngineCall.Load path])
            ++ [EngineCall.destruct] }) ∨
    (∃ m, E.Load path = some m ∧
      sentencepiece_create E model_path w = Outcome.ret (Ptr.addr (Heap.fresh w.heap))
        { heap := (Heap.fresh w.heap, Block.processor m) :: w.heap, scratch := w.scratch,
          calls := (w.calls ++ [EngineCall.construct]) ++ [EngineCall.Load path] }) := by
  have h1 : ((w.call EngineCall.construct).alloc (Block.processor E.unloaded)).2.readCStr model_path
      = some path :=
    World.readCStr_alloc (w.call EngineCall.construct) _ model_path path hpath
  have hfree : Heap.free w.heap (Heap.fresh w.heap) = w.heap :=
    Heap.free_of_get_none w.heap _ (Heap.get_fresh w.heap)
  cases hl : E.Load path with
  | none =>
    left
    refine ⟨rfl, ?_⟩
    simp only [sentencepiece_create, h1, hl]
    simp [World.call, World.alloc, Heap.free, hfree]
  | some m =>
    right
    refine ⟨m, rfl, ?_⟩
    simp only [sentencepiece_create, h1, hl]
    simp [World.call, World.alloc, Heap.set]

/-- C10: for a readable model path, `sentencepiece_create` returns null exactly when
the engine's Load fails; on failure the heap is the one before the call (the
processor allocated by `new` has been deleted); on success the handle is a
previously unused address and the heap is the old heap plus one block at that
address, a processor loaded from the path. -/
theorem create_null_iff_load_fails (E : Engine) (model_path : Ptr) (w : World) (path : Text)
    (hpath : w.readCStr model_path = some path) :
    ∃ r w1, sentencepiece_create E model_path w = Outcome.ret r w1 ∧
      (r = Ptr.null ↔ E.Load path = none) ∧
      (E.Load path = none → w1.heap = w.heap) ∧
      (∀ m, E.Load path = some m →
        ∃ a, r = Ptr.addr a ∧ Heap.get w.heap a = none ∧
          w1.heap = (a, Block.processor m) :: w.heap ∧ w1.processorAt r = some m) := by
  rcases create_outcome E model_path w path hpath with ⟨hl, hc⟩ | ⟨m, hl, hc⟩
  · refine ⟨_, _, hc, ?_, fun _ => rfl, ?_⟩
    · simp [hl]
    · intro m hm; rw [hl] at hm; cases hm
  · refine ⟨_, _, hc, ?_, ?_, ?_⟩
    · simp [hl]
    · intro hn; rw [hl] at hn; cases hn
    · intro m2 hm
      rw [hl] at hm
      cases hm
      exact ⟨_, rfl, Heap.get_fresh w.heap, rfl, by simp [World.processorAt, Heap.get]⟩

theorem create_null_iff_load_fails_witness :
    demoWorld.readCStr (Ptr.addr 2) = some ['m'] ∧
    ∃ r w1, sentencepiece_create demoEngine (Ptr.addr 2) demoWorld = Outcome.ret r w1 ∧
      (r = Ptr.null ↔ demoEngine.Load ['m'] = none) ∧
      (demoEngine.Load ['m'] = none → w1.heap = demoWorld.heap) ∧
      (∀ m, demoEngine.Load ['m'] = some m →
        ∃ a, r = Ptr.addr a ∧ Heap.get demoWorld.heap a = none ∧
          w1.heap = (a, Block.processor m) :: demoWorld.heap ∧ w1.processorAt r = some m) :=
  ⟨rfl, create_null_iff_load_fails demoEngine (Ptr.addr 2) demoWorld ['m'] rfl⟩

/-- C8 (as the code behaves): `sentencepiece_get_score` returns 0.0 for a null
handle, and for a live handle it returns the engine's `GetScore(id)` unchanged for
every `id`, inside the vocabulary range or not; there is no range test. -/
theorem get_score_passes_engine_score (w : World) (processor : Ptr) (id : Int) :
    sentencepiece_get_score Ptr.null id w = Outcome.ret Float32.zero w ∧
    (∀ sp, w.processorAt processor = some sp →
      sentencepiece_get_score processor id w
        = Outcome.ret (sp.GetScore id) (w.call (EngineCall.GetScore id))) := by
  refine ⟨by simp [sentencepiece_get_score], ?_⟩
  intro sp hp
  have h1 := World.processorAt_ne_null w processor sp hp
  simp [sentencepiece_get_score, h1, hp]

theorem get_score_passes_engine_score_witness :
    demoWorld.processorAt (Ptr.addr 1) = some demoModel ∧
    sentencepiece_get_score (Ptr.addr 1) 1 demoWorld
      = Outcome.ret (demoModel.GetScore 1) (demoWorld.call (EngineCall.GetScore 1)) :=
  ⟨rfl, (get_score_passes_engine_score demoWorld (Ptr.addr 1) 1).2 demoModel rfl⟩

/-- C8 fails as stated: with vocabulary size 4 the id -1 is invalid, yet
`sentencepiece_get_score` returns the engine's score for it, which is not 0.0. -/
theorem get_score_invalid_id_counterexample :
    (sentencepiece_get_piece_size (Ptr.addr 1) demoWorld).value = some 4 ∧
    ¬ ((0 : Int) ≤ -1 ∧ (-1 : Int) < 4) ∧
    (sentencepiece_get_score (Ptr.addr 1) (-1) demoWorld).value = some ⟨0xC1200000⟩ ∧
    (sentencepiece_get_score (Ptr.addr 1) (-1) demoWorld).value ≠ some Float32.zero := by
  decide

/-! ## Decoding -/

theorem c_str_cons_nul (s : Text) : c_str (NUL :: s) = [] := by
  simp [c_str, List.takeWhile]

theorem c_str_cons_ne (c : Char) (s : Text) (hc : c ≠ NUL) : c_str (c :: s) = c :: c_str s := by
  simp [c_str, List.takeWhile, hc]

theorem c_str_idem (s : Text) : c_str (c_str s) = c_str s := by
  induction s with
  | nil => rfl
  | cons c s ih =>
    by_cases hc : c = NUL
    · subst hc
      rw [c_str_cons_nul]
      rfl
    · rw [c_str_cons_ne c s hc, c_str_cons_ne c _ hc, ih]

theorem c_str_of_no_nul (s : Text) (h : NUL ∉ s) : c_str s = s := by
  induction s with
  | nil => rfl
  | cons c s ih =>
    have hc : c ≠ NUL := fun e => h (by simp [e])
    have hs : NUL ∉ s := fun e => h (by simp [e])
    rw [c_str_cons_ne c s hc, ih hs]

/-- C2 (as the code behaves): with a handle that is null or live and an id buffer
that is null or holds `num_ids` readable ints `xs`, `sentencepiece_decode_ids`
returns; the result is null exactly when the handle is null, `ids` is null,
`num_ids <= 0` or the engine's Decode of `xs` fails; otherwise it is a newly
allocated block holding the decoded text up to its first NUL (the whole text when
it contains none). -/
theorem decode_ids_null_iff (w : World) (processor ids : Ptr) (num_ids : Int) (sp : Model)
    (xs : List Int) (hsp : processor ≠ Ptr.null → w.processorAt processor = some sp)
    (hxs : ids ≠ Ptr.null → 0 < num_ids → w.readInts ids num_ids.toNat = some xs) :
    ∃ r w1, sentencepiece_decode_ids processor ids num_ids w = Outcome.ret r w1 ∧
      (r = Ptr.null ↔
        (processor = Ptr.null ∨ ids = Ptr.null ∨ num_ids ≤ 0 ∨ sp.Decode xs = none)) ∧
      (r ≠ Ptr.null →
        ∃ d a, sp.Decode xs = some d ∧ r = Ptr.addr a ∧ Heap.get w.heap a = none ∧
          w1.heap = (a, Block.chars (c_str d)) :: w.heap ∧
          w1.readCStr r = some (c_str d) ∧ (NUL ∉ d → w1.readCStr r = some d)) := by
  by_cases hg : processor = Ptr.null ∨ ids = Ptr.null ∨ num_ids ≤ 0
  · refine ⟨Ptr.null, w, ?_, ?_, fun h => absurd rfl h⟩
    · simp [sentencepiece_decode_ids, hg]
    · constructor
      · intro _
        rcases hg with h | h | h
        · exact Or.inl h
        · exact Or.inr (Or.inl h)
        · exact Or.inr (Or.inr (Or.inl h))
      · intro _; rfl
  · have hg2 := hg
    simp only [not_or, not_le] at hg2
    obtain ⟨h1, h2, h3⟩ := hg2
    have hp := hsp h1
    have hx := hxs h2 h3
    cases hd : sp.Decode xs with
    | none =>
      refine ⟨Ptr.null, w.call (EngineCall.Decode xs), ?_, ?_, fun h => absurd rfl h⟩
      · simp only [sentencepiece_decode_ids, if_neg hg, hp, hx, hd]
      · simp
    | some d =>
      refine ⟨Ptr.addr (Heap.fresh w.heap),
        ((w.call (EngineCall.Decode xs)).alloc (Block.chars (c_str d))).2, ?_, ?_, ?_⟩
      · simp only [sentencepiece_decode_ids, if_neg hg, hp, hx, hd]
        rfl
      · constructor
        · intro h; cases h
        · intro h
          rcases h with h | h | h | h
          · exact absurd h h1
          · exact absurd h h2
          · exact absurd h (not_le.mpr h3)
          · cases h
      · intro _
        have hr : ((w.call (EngineCall.Decode xs)).alloc (Block.chars (c_str d))).2.readCStr
            (Ptr.addr (Heap.fresh w.heap)) = some (c_str d) := by
          simp [World.readCStr, World.alloc, World.call, Heap.get, c_str_idem]
        refine ⟨d, Heap.fresh w.heap, rfl, rfl, Heap.get_fresh w.heap, rfl, hr, ?_⟩
        intro hn
        rw [hr, c_str_of_no_nul d hn]

theorem decode_ids_null_iff_witness :
    (Ptr.addr 1 ≠ Ptr.null → demoWorld.processorAt (Ptr.addr 1) = some demoModel) ∧
    (Ptr.addr 8 ≠ Ptr.null → (0 : Int) < 2 →
      demoWorld.readInts (Ptr.addr 8) (2 : Int).toNat = some [1, 3]) ∧
    ∃ r w1, sentencepiece_decode_ids (Ptr.addr 1) (Ptr.addr 8) 2 demoWorld = Outcome.ret r w1 ∧
      (r = Ptr.null ↔
        (Ptr.addr 1 = Ptr.null ∨ Ptr.addr 8 = Ptr.null ∨ (2 : Int) ≤ 0 ∨
          demoModel.Decode [1, 3] = none)) ∧
      (r ≠ Ptr.null →
        ∃ d a, demoModel.Decode [1, 3] = some d ∧ r = Ptr.addr a ∧
          Heap.get demoWorld.heap a = none ∧
          w1.heap = (a, Block.chars (c_str d)) :: demoWorld.heap ∧
          w1.readCStr r = some (c_str d) ∧ (NUL ∉ d → w1.readCStr r = some d)) :=
  ⟨fun _ => rfl, fun _ _ => rfl,
    decode_ids_null_iff demoWorld (Ptr.addr 1) (Ptr.addr 8) 2 demoModel [1, 3]
      (fun _ => rfl) (fun _ _ => rfl)⟩

/-- C2 fails as stated: the engine decodes the ids 1, 3, 2 to a text with a NUL in
second position, and the string `sentencepiece_decode_ids` returns holds only the
one character before it. -/
theorem decode_ids_counterexample :
    demoWorld.readInts (Ptr.addr 8) 3 = some [1, 3, 2] ∧
    demoModel.Decode [1, 3, 2] = some ['a', NUL, 'z', 'b'] ∧
    (sentencepiece_decode_ids (Ptr.addr 1) (Ptr.addr 8) 3 demoWorld).value = some (Ptr.addr 10) ∧
    ((sentencepiece_decode_ids (Ptr.addr 1) (Ptr.addr 8) 3 demoWorld).world.bind
      (fun w1 => w1.readCStr (Ptr.addr 10))) = some ['a'] ∧
    ((sentencepiece_decode_ids (Ptr.addr 1) (Ptr.addr 8) 3 demoWorld).world.bind
      (fun w1 => w1.readCStr (Ptr.addr 10))) ≠ some ['a', NUL, 'z', 'b'] := by
  decide

/-! ## Vocabulary round trip -/

/-- C6 (as the code behaves): for a live handle, `sentencepiece_piece_to_id` applied
to the result of `sentencepiece_id_to_piece` returns the engine's `PieceToId` of the
piece cut at its first NUL; when the engine's mapping is a bijection on
`[0, sentencepiece_get_piece_size)`, `id` lies in that range and its piece has no
NUL, the result is `id`. -/
theorem piece_to_id_of_id_to_piece_roundtrip (w : World) (processor : Ptr) (sp : Model)
    (id : Int) (hp : w.processorAt processor = some sp) :
    (∃ w1, piece_to_id_of_id_to_piece processor id w
        = Outcome.ret (sp.PieceToId (c_str (sp.IdToPiece id))) w1) ∧
    (∀ n w0, sp.Bijective → sentencepiece_get_piece_size processor w = Outcome.ret n w0 →
      0 ≤ id → id < n → NUL ∉ sp.IdToPiece id →
      ∃ w1, piece_to_id_of_id_to_piece processor id w = Outcome.ret id w1) := by
  have h1 := World.processorAt_ne_null w processor sp hp
  have hrun : ∃ w1, piece_to_id_of_id_to_piece processor id w
      = Outcome.ret (sp.PieceToId (c_str (sp.IdToPiece id))) w1 := by
    refine ⟨World.mk w.heap (sp.IdToPiece id) ((w.calls ++ [EngineCall.IdToPiece id])
      ++ [EngineCall.PieceToId (c_str (sp.IdToPiece id))]), ?_⟩
    simp only [piece_to_id_of_id_to_piece, sentencepiece_id_to_piece, if_neg h1, hp]
    have hp2 : World.processorAt
        { (w.call (EngineCall.IdToPiece id)) with scratch := sp.IdToPiece id } processor
        = some sp := by
      cases processor with
      | null => exact absurd rfl h1
      | scratch => simp [World.processorAt] at hp
      | addr a => simpa [World.processorAt, World.call] using hp
    simp only [sentencepiece_piece_to_id, h1, hp2, World.readCStr]
    simp [World.call]
  refine ⟨hrun, ?_⟩
  intro n w0 hb hn h0 hlt hnul
  obtain ⟨w1, hw1⟩ := hrun
  refine ⟨w1, ?_⟩
  simp only [sentencepiece_get_piece_size, if_neg h1, hp] at hn
  injection hn with hv _
  rw [hw1, c_str_of_no_nul _ hnul, hb id h0 (by rw [hv]; exact hlt)]

theorem demoModel_bijective : demoModel.Bijective := by
  intro id h0 h4
  have h4 : id < 4 := h4
  interval_cases id <;> decide

theorem piece_to_id_of_id_to_piece_roundtrip_witness :
    demoWorld.processorAt (Ptr.addr 1) = some demoModel ∧
    ∃ w1, piece_to_id_of_id_to_piece (Ptr.addr 1) 2 demoWorld = Outcome.ret 2 w1 :=
  ⟨rfl, (piece_to_id_of_id_to_piece_roundtrip demoWorld (Ptr.addr 1) demoModel 2 rfl).2 4 _
    demoModel_bijective rfl (by decide) (by decide) (by decide)⟩

/-- C6 fails as stated: the demonstration engine is a bijection on `[0, 4)`, the id 3
is in range, and the round trip through the two C strings returns 0. -/
theorem piece_to_id_of_id_to_piece_counterexample :
    demoModel.Bijective ∧
    (sentencepiece_get_piece_size (Ptr.addr 1) demoWorld).value = some 4 ∧
    ((0 : Int) ≤ 3 ∧ (3 : Int) < 4) ∧
    (piece_to_id_of_id_to_piece (Ptr.addr 1) 3 demoWorld).value = some 0 ∧
    (piece_to_id_of_id_to_piece (Ptr.addr 1) 3 demoWorld).value ≠ some 3 :=
  ⟨demoModel_bijective, by decide, by decide, by decide, by decide⟩

/-! ## Successful encoding -/

theorem allInit_map_some {α : Type} (xs : List α) : allInit (xs.map some) = some xs := by
  induction xs with
  | nil => rfl
  | cons x xs ih => simp [allInit, ih]

theorem set_next_slot (qs : List Ptr) (n : Nat) (p : Ptr) :
    (qs.map some ++ List.replicate (n + 1) none).set qs.length (some p)
      = (qs ++ [p]).map some ++ List.replicate n none := by
  induction qs with
  | nil => simp [List.replicate_succ]
  | cons q qs ih => simpa using ih

/-- The copy loop, started with the slots `[0, qs.length)` filled by `qs`, fills the
remaining slots with new strings and leaves every other block as it was. -/
theorem encode_as_pieces_loop_spec (c f : Nat) :
    ∀ (rest : List Text) (w : World) (qs : List Ptr),
      Heap.get w.heap c = some (Block.cell (Ptr.addr f)) →
      Heap.get w.heap f = some (Block.ptrs (qs.map some ++ List.replicate rest.length none)) →
      ∃ w1 qs1, encode_as_pieces_loop (Ptr.addr c) rest qs.length w = some w1 ∧
        Heap.get w1.heap f = some (Block.ptrs ((qs ++ qs1).map some)) ∧
        qs1.length = rest.length ∧
        w1.readCStrs qs1 = some (rest.map c_str) ∧
        (∀ a b, a ≠ f → Heap.get w.heap a = some b → Heap.get w1.heap a = some b) ∧
        w1.scratch = w.scratch ∧ w1.calls = w.calls := by
  intro rest
  induction rest with
  | nil =>
    intro w qs _ hf
    refine ⟨w, [], rfl, ?_, rfl, rfl, fun _ _ _ h => h, rfl, rfl⟩
    simpa using hf
  | cons s rest ih =>
    intro w qs hc hf
    have hcf : c ≠ f := by
      intro e; rw [e, hf] at hc; cases hc
    have hdc : Heap.fresh w.heap ≠ c := Heap.ne_fresh w.heap c _ hc
    have hdf : Heap.fresh w.heap ≠ f := Heap.ne_fresh w.heap f _ hf
    have hlen : qs.length < (qs.map some ++ List.replicate (rest.length + 1) none).length := by
      simp
    -- the state after one iteration
    obtain ⟨w1, qs1, hrun, hf1, hl1, hs1, hframe, hsc, hca⟩ :=
      ih (World.mk (Heap.set ((Heap.fresh w.heap, Block.chars (c_str s)) :: w.heap) f
            (Block.ptrs ((qs ++ [Ptr.addr (Heap.fresh w.heap)]).map some
              ++ List.replicate rest.length none))) w.scratch w.calls)
        (qs ++ [Ptr.addr (Heap.fresh w.heap)])
        (by
          show Heap.get (Heap.set _ f _) c = _
          rw [Heap.get_set_ne _ f c _ (Ne.symm hcf)]
          simp [Heap.get, hdc, hc])
        (by
          show Heap.get (Heap.set _ f _) f = _
          exact Heap.get_set_self _ f _ _ (by simp [Heap.get, hdf]; exact hf))
    have hd1 : Heap.get w1.heap (Heap.fresh w.heap) = some (Block.chars (c_str s)) := by
      apply hframe _ _ hdf
      show Heap.get (Heap.set _ f _) _ = _
      rw [Heap.get_set_ne _ f _ _ (Ne.symm hdf)]
      simp [Heap.get]
    refine ⟨w1, Ptr.addr (Heap.fresh w.heap) :: qs1, ?_, ?_, ?_, ?_, ?_, hsc, hca⟩
    · simp only [encode_as_pieces_loop, World.alloc, World.readCell, World.writePtrAt, Heap.get,
        if_neg hdc, if_neg hdf, hc, hf, if_pos hlen, set_next_slot]
      simpa using hrun
    · simpa using hf1
    · simp [hl1]
    · simp [World.readCStrs, World.readCStr, hd1, hs1, c_str_idem]
    · intro a b haf hab
      apply hframe a b haf
      show Heap.get (Heap.set _ f _) a = _
      rw [Heap.get_set_ne _ f a _ (Ne.symm haf)]
      exact Heap.get_cons_of_get w.heap _ a b _ hab rfl

/-- Effect of a successful `sentencepiece_encode_as_pieces` on a valid output cell. -/
theorem encode_as_pieces_success (w : World) (processor text : Ptr) (c : Nat) (sp : Model)
    (t : Text) (p : List Text) (old : Ptr) (hp : w.processorAt processor = some sp)
    (ht : w.readCStr text = some t) (hc : Heap.get w.heap c = some (Block.cell old))
    (he : sp.EncodePieces t = some p) :
    ∃ w1 qs, sentencepiece_encode_as_pieces processor text (Ptr.addr c) w
        = Outcome.ret (size_to_int p.length) w1 ∧
      Heap.get w1.heap c = some (Block.cell (Ptr.addr (Heap.fresh w.heap))) ∧
      Heap.get w1.heap (Heap.fresh w.heap) = some (Block.ptrs (qs.map some)) ∧
      qs.length = p.length ∧ w1.readCStrs qs = some (p.map c_str) ∧
      (∀ a b, a ≠ c → Heap.get w.heap a = some b → Heap.get w1.heap a = some b) := by
  have h1 := World.processorAt_ne_null w processor sp hp
  have h2 := World.readCStr_ne_null w text t ht
  have hfc : Heap.fresh w.heap ≠ c := Heap.ne_fresh w.heap c _ hc
  have hc2 : Heap.get ((Heap.fresh w.heap, Block.ptrs (List.replicate p.length none)) :: w.heap) c
      = some (Block.cell old) := Heap.get_cons_of_get w.heap _ c _ _ hc rfl
  obtain ⟨w1, qs, hrun, hf1, hl, hs, hframe, _, _⟩ :=
    encode_as_pieces_loop_spec c (Heap.fresh w.heap) p
      (World.mk (Heap.set ((Heap.fresh w.heap, Block.ptrs (List.replicate p.length none)) :: w.heap)
        c (Block.cell (Ptr.addr (Heap.fresh w.heap)))) w.scratch
        (w.calls ++ [EngineCall.EncodePieces t])) []
      (Heap.get_set_self _ c _ _ hc2)
      (by
        show Heap.get (Heap.set _ c _) _ = _
        rw [Heap.get_set_ne _ c _ _ (Ne.symm hfc)]
        simp [Heap.get])
  have hcf : c ≠ Heap.fresh w.heap := Ne.symm hfc
  refine ⟨w1, qs, ?_, ?_, by simpa using hf1, hl, hs, ?_⟩
  · have hrun2 : encode_as_pieces_loop (Ptr.addr c) p 0
        (World.mk (Heap.set
          ((Heap.fresh w.heap, Block.ptrs (List.replicate p.length none)) :: w.heap)
          c (Block.cell (Ptr.addr (Heap.fresh w.heap)))) w.scratch
          (w.calls ++ [EngineCall.EncodePieces t])) = some w1 := hrun
    simp only [sentencepiece_encode_as_pieces, h1, h2, hp, ht, he, World.alloc, World.call,
      World.writeCell, hc2]
    simp [hrun2]
  · apply hframe c _ hcf
    exact Heap.get_set_self _ c _ _ hc2
  · intro a b hac hab
    have hab2 := Heap.get_lt_fresh w.heap a b hab
    apply hframe a b (by omega)
    show Heap.get (Heap.set _ c _) a = _
    rw [Heap.get_set_ne _ c a _ (Ne.symm hac)]
    exact Heap.get_cons_of_get w.heap _ a b _ hab rfl

theorem size_to_int_of_lt (n : Nat) (h : n < 2 ^ 31) : size_to_int n = (n : Int) := by
  have h2 : n % 2 ^ 32 = n := Nat.mod_eq_of_lt (by omega)
  unfold size_to_int
  rw [h2, if_pos h]

/-- C4 (as the code behaves): for a live handle, a readable text and a valid output
location, when the engine's Encode succeeds with the piece list `p`,
`sentencepiece_encode_as_pieces` returns the length of `p` converted to `int` (the
length itself below `2^31`) and the output location then refers to a newly
allocated array of exactly `length p` entries, every one of them a string, the
`i`-th being `p[i]` up to its first NUL, in the engine's order; when no piece
contains a NUL the strings are exactly `p`. -/
theorem encode_as_pieces_stores_pieces (w : World) (processor text out : Ptr) (sp : Model)
    (t : Text) (p : List Text) (old : Ptr) (hp : w.processorAt processor = some sp)
    (ht : w.readCStr text = some t) (hout : w.readCell out = some old)
    (he : sp.EncodePieces t = some p) :
    ∃ w1, sentencepiece_encode_as_pieces processor text out w
        = Outcome.ret (size_to_int p.length) w1 ∧
      (p.length < 2 ^ 31 → size_to_int p.length = (p.length : Int)) ∧
      w1.readPieces out p.length = some (p.map c_str) ∧
      ((∀ s ∈ p, NUL ∉ s) → w1.readPieces out p.length = some p) ∧
      (∃ arr qs, w1.readCell out = some (Ptr.addr arr) ∧ Heap.get w.heap arr = none ∧
        Heap.get w1.heap arr = some (Block.ptrs (qs.map some)) ∧
        qs.length = p.length ∧ w1.readCStrs qs = some (p.map c_str)) := by
  obtain ⟨c, hoc, hc⟩ := World.readCell_eq w out old hout
  subst hoc
  obtain ⟨w1, qs, hrun, hc1, hf1, hl, hs, _⟩ :=
    encode_as_pieces_success w processor text c sp t p old hp ht hc he
  have hread : w1.readPieces (Ptr.addr c) p.length = some (p.map c_str) := by
    simp only [World.readPieces, World.readCell, hc1, hf1]
    have hlen : p.length ≤ (qs.map some).length := by simp [hl]
    have htake : (qs.map some).take p.length = qs.map some := by
      rw [List.take_of_length_le]; simp [hl]
    simp only [if_pos hlen, htake, allInit_map_some, hs]
  refine ⟨w1, hrun, size_to_int_of_lt p.length, hread, ?_, ?_⟩
  · intro hn
    rw [hread]
    congr 1
    calc p.map c_str = p.map id := List.map_congr_left (fun s hs => c_str_of_no_nul s (hn s hs))
      _ = p := List.map_id p
  · refine ⟨Heap.fresh w.heap, qs, ?_, Heap.get_fresh w.heap, hf1, hl, hs⟩
    simp [World.readCell, hc1]

theorem encode_as_pieces_stores_pieces_witness :
    demoWorld.processorAt (Ptr.addr 1) = some demoModel ∧
    demoWorld.readCStr (Ptr.addr 4) = some ['a', 'b'] ∧
    demoWorld.readCell (Ptr.addr 7) = some (Ptr.addr 99) ∧
    demoModel.EncodePieces ['a', 'b'] = some [['a'], ['b']] ∧
    ∃ w1, sentencepiece_encode_as_pieces (Ptr.addr 1) (Ptr.addr 4) (Ptr.addr 7) demoWorld
        = Outcome.ret (size_to_int [['a'], ['b']].length) w1 ∧
      ([['a'], ['b']].length < 2 ^ 31 →
        size_to_int [['a'], ['b']].length = (([['a'], ['b']] : List Text).length : Int)) ∧
      w1.readPieces (Ptr.addr 7) [['a'], ['b']].length = some ([['a'], ['b']].map c_str) ∧
      ((∀ s ∈ [['a'], ['b']], NUL ∉ s) →
        w1.readPieces (Ptr.addr 7) [['a'], ['b']].length = some [['a'], ['b']]) ∧
      (∃ arr qs, w1.readCell (Ptr.addr 7) = some (Ptr.addr arr) ∧
        Heap.get demoWorld.heap arr = none ∧
        Heap.get w1.heap arr = some (Block.ptrs (qs.map some)) ∧
        qs.length = [['a'], ['b']].length ∧
        w1.readCStrs qs = some ([['a'], ['b']].map c_str)) :=
  ⟨rfl, rfl, rfl, rfl,
    encode_as_pieces_stores_pieces demoWorld (Ptr.addr 1) (Ptr.addr 4) (Ptr.addr 7) demoModel
      ['a', 'b'] [['a'], ['b']] (Ptr.addr 99) rfl rfl rfl rfl⟩

/-- C4 fails as stated: the engine encodes the text `z` as the single piece
`NUL z`; `sentencepiece_encode_as_pieces` returns 1 and the single string it stores
is empty, not that piece. -/
theorem encode_as_pieces_counterexample :
    demoWorld.readCStr (Ptr.addr 3) = some ['z'] ∧
    demoModel.EncodePieces ['z'] = some [[NUL, 'z']] ∧
    (sentencepiece_encode_as_pieces (Ptr.addr 1) (Ptr.addr 3) (Ptr.addr 7) demoWorld).value
      = some 1 ∧
    ((sentencepiece_encode_as_pieces (Ptr.addr 1) (Ptr.addr 3) (Ptr.addr 7) demoWorld).world.bind
      (fun w1 => w1.readPieces (Ptr.addr 7) 1)) = some [[]] ∧
    ((sentencepiece_encode_as_pieces (Ptr.addr 1) (Ptr.addr 3) (Ptr.addr 7) demoWorld).world.bind
      (fun w1 => w1.readPieces (Ptr.addr 7) 1)) ≠ some [[NUL, 'z']] := by
  decide

/-! ## Count zero -/

/-- C7 (as the code behaves): when `sentencepiece_encode_as_pieces` or
`sentencepiece_encode_as_ids` returns 0 because the handle, the text or the output
pointer is null, or because the engine's Encode failed, the heap after the call is
the heap before it: nothing has been allocated and the output location holds its
old value. -/
theorem encode_zero_count_without_allocation (w : World) (processor text out : Ptr) :
    ((processor = Ptr.null ∨ text = Ptr.null ∨ out = Ptr.null) →
      sentencepiece_encode_as_pieces processor text out w = Outcome.ret 0 w ∧
      sentencepiece_encode_as_ids processor text out w = Outcome.ret 0 w) ∧
    (∀ sp t, w.processorAt processor = some sp → w.readCStr text = some t →
      (sp.EncodePieces t = none →
        ∃ w1, sentencepiece_encode_as_pieces processor text out w = Outcome.ret 0 w1 ∧
          w1.heap = w.heap ∧ w1.readCell out = w.readCell out) ∧
      (sp.EncodeIds t = none →
        ∃ w1, sentencepiece_encode_as_ids processor text out w = Outcome.ret 0 w1 ∧
          w1.heap = w.heap ∧ w1.readCell out = w.readCell out)) := by
  constructor
  · intro hn
    simp [sentencepiece_encode_as_pieces, sentencepiece_encode_as_ids, hn]
  · intro sp t hp ht
    have h1 := World.processorAt_ne_null w processor sp hp
    have h2 := World.readCStr_ne_null w text t ht
    constructor
    · intro hf
      by_cases ho : out = Ptr.null
      · exact ⟨w, by simp [sentencepiece_encode_as_pieces, ho], rfl, rfl⟩
      · exact ⟨w.call (EngineCall.EncodePieces t),
          by simp [sentencepiece_encode_as_pieces, h1, h2, ho, hp, ht, hf], rfl, rfl⟩
    · intro hf
      by_cases ho : out = Ptr.null
      · exact ⟨w, by simp [sentencepiece_encode_as_ids, ho], rfl, rfl⟩
      · exact ⟨w.call (EngineCall.EncodeIds t),
          by simp [sentencepiece_encode_as_ids, h1, h2, ho, hp, ht, hf], rfl, rfl⟩

theorem encode_zero_count_without_allocation_witness :
    (Ptr.null = Ptr.null ∨ Ptr.addr 4 = Ptr.null ∨ Ptr.addr 7 = Ptr.null) ∧
    (sentencepiece_encode_as_pieces Ptr.null (Ptr.addr 4) (Ptr.addr 7) demoWorld
        = Outcome.ret 0 demoWorld ∧
      sentencepiece_encode_as_ids Ptr.null (Ptr.addr 4) (Ptr.addr 7) demoWorld
        = Outcome.ret 0 demoWorld) ∧
    demoWorld.processorAt (Ptr.addr 1) = some demoModel ∧
    demoWorld.readCStr (Ptr.addr 6) = some ['!'] ∧
    demoModel.EncodePieces ['!'] = none ∧
    demoModel.EncodeIds ['!'] = none ∧
    (∃ w1, sentencepiece_encode_as_pieces (Ptr.addr 1) (Ptr.addr 6) (Ptr.addr 7) demoWorld
        = Outcome.ret 0 w1 ∧
      w1.heap = demoWorld.heap ∧ w1.readCell (Ptr.addr 7) = demoWorld.readCell (Ptr.addr 7)) ∧
    (∃ w1, sentencepiece_encode_as_ids (Ptr.addr 1) (Ptr.addr 6) (Ptr.addr 7) demoWorld
        = Outcome.ret 0 w1 ∧
      w1.heap = demoWorld.heap ∧ w1.readCell (Ptr.addr 7) = demoWorld.readCell (Ptr.addr 7)) :=
  ⟨Or.inl rfl,
    (encode_zero_count_without_allocation demoWorld Ptr.null (Ptr.addr 4) (Ptr.addr 7)).1
      (Or.inl rfl),
    rfl, rfl, rfl, rfl,
    ((encode_zero_count_without_allocation demoWorld (Ptr.addr 1) (Ptr.addr 6) (Ptr.addr 7)).2
      demoModel ['!'] rfl rfl).1 rfl,
    ((encode_zero_count_without_allocation demoWorld (Ptr.addr 1) (Ptr.addr 6) (Ptr.addr 7)).2
      demoModel ['!'] rfl rfl).2 rfl⟩

/-- C7 fails as stated: the engine encodes the empty text successfully to no
pieces and no ids; both encoders return 0, yet each has allocated a block at the
previously unused address 10 and overwritten the output location, which held
`Ptr.addr 99`, with a pointer to it. -/
theorem encode_zero_count_counterexample :
    demoWorld.readCStr (Ptr.addr 5) = some [] ∧
    demoModel.EncodePieces [] = some [] ∧ demoModel.EncodeIds [] = some [] ∧
    demoWorld.readCell (Ptr.addr 7) = some (Ptr.addr 99) ∧
    (Heap.get demoWorld.heap 10).isSome = false ∧
    (sentencepiece_encode_as_pieces (Ptr.addr 1) (Ptr.addr 5) (Ptr.addr 7) demoWorld).value
      = some 0 ∧
    ((sentencepiece_encode_as_pieces (Ptr.addr 1) (Ptr.addr 5) (Ptr.addr 7) demoWorld).world.bind
      (fun w1 => w1.readCell (Ptr.addr 7))) = some (Ptr.addr 10) ∧
    ((sentencepiece_encode_as_pieces (Ptr.addr 1) (Ptr.addr 5) (Ptr.addr 7) demoWorld).world.map
      (fun w1 => (Heap.get w1.heap 10).isSome)) = some true ∧
    (sentencepiece_encode_as_ids (Ptr.addr 1) (Ptr.addr 5) (Ptr.addr 7) demoWorld).value
      = some 0 ∧
    ((sentencepiece_encode_as_ids (Ptr.addr 1) (Ptr.addr 5) (Ptr.addr 7) demoWorld).world.bind
      (fun w1 => w1.readCell (Ptr.addr 7))) = some (Ptr.addr 10) ∧
    ((sentencepiece_encode_as_ids (Ptr.addr 1) (Ptr.addr 5) (Ptr.addr 7) demoWorld).world.map
      (fun w1 => (Heap.get w1.heap 10).isSome)) = some true := by
  decide

/-! ## Encode then decode -/

end SentencePieceBridge
